import Mathlib

/-!
Verification of the rally-time planner's arithmetic core.

The source is a TypeScript/React application with three variants of the
planner:
* a calculate-from-now planner (skew-maximizing mode) — `RallyTimingPlanner`
  in the first unnamed source file, and the identical arithmetic in
  `RallyTimingPlannerPage` of the second unnamed source file;
* a fixed-target planner — `RallyTimingPlanner` in `src/App.tsx`.

We embed the arithmetic and string-formatting helpers shallowly:
JavaScript numbers that are always integers in this code become `Int`/`Nat`,
JavaScript strings become `List Char`, epochs (seconds since the Unix epoch)
become `Int`.  The JavaScript `Number(...)` conversion applied to raw user
input is abstracted by `JSInput` (see `normalizeInt`); the `Number(...)`
conversion applied to the digit strings produced by the formatters themselves
is modelled exactly by `numOr0`.
-/

namespace RallyTime

/-- Convert a `String` literal to the `List Char` representation used for
JavaScript strings throughout this development. -/
def lit (s : String) : List Char := s.data

/-- The character for a single decimal digit `d` (`d < 10`), i.e. the
code point `48 + d`.  This models how JavaScript renders one digit of a
number. -/
def digitChar (d : Nat) : Char := Char.ofNat (48 + d)

/-- Decimal digit test on characters (code points 48–57).  Strings made of
such characters are exactly those on which JavaScript `Number(...)` returns
the denoted natural number. -/
def isDigitChar (c : Char) : Bool := 48 ≤ c.toNat && c.toNat ≤ 57

/-- Fuel-driven decimal rendering of a natural number, most significant digit
first.  `natCharsCore (n+1) n` renders `n` the way JavaScript `String(n)`
does for a non-negative integer. -/
def natCharsCore : Nat → Nat → List Char
  | 0, _ => []
  | fuel + 1, n =>
      if n < 10 then [digitChar n]
      else natCharsCore fuel (n / 10) ++ [digitChar (n % 10)]

/-- Decimal rendering of a natural number: the model of JavaScript
`String(n)` / template interpolation for the non-negative integers this
program prints. -/
def natChars (n : Nat) : List Char := natCharsCore (n + 1) n

/-- Model of `String(n).padStart(2, "0")` (the source's `zeroPad2`): pad the
decimal rendering on the left with zeros to length at least 2. -/
def zeroPad2 (n : Nat) : List Char :=
  if 2 ≤ (natChars n).length then natChars n
  else List.replicate (2 - (natChars n).length) '0' ++ natChars n

/-- Model of the source's `hms`: format a number of seconds as `H:MM:SS`,
clamping negative input to 0 and leaving the hour part unpadded. -/
def hms (total : Int) : List Char :=
  let t := total.toNat
  natChars (t / 3600) ++ ':' :: zeroPad2 (t % 3600 / 60) ++ ':' :: zeroPad2 (t % 60)

/-- Model of the source's `mmss`: format a number of seconds as `MM:SS`,
clamping negative input to 0. -/
def mmss (sec : Int) : List Char :=
  let t := sec.toNat
  zeroPad2 (t / 60) ++ ':' :: zeroPad2 (t % 60)

/-- Model of the source's `fmt` helpers: format the time of day of an
absolute epoch as `HH:MM:SS` using `getUTCHours`/`getUTCMinutes`/
`getUTCSeconds`, each zero-padded to two digits.  The time of day of an
epoch `e` is `e mod 86400` (Unix time has no leap seconds). -/
def fmtEpoch (e : Int) : List Char :=
  let t := (e % 86400).toNat
  zeroPad2 (t / 3600) ++ ':' :: zeroPad2 (t % 3600 / 60) ++ ':' :: zeroPad2 (t % 60)

/-- Model of JavaScript `str.split(":")`: split a character list at every
colon.  Always returns at least one (possibly empty) field. -/
def splitColon : List Char → List (List Char)
  | [] => [[]]
  | c :: rest =>
      if c = ':' then [] :: splitColon rest
      else (c :: (splitColon rest).headD []) :: (splitColon rest).tail

/-- The accumulator step of reading a decimal numeral left to right. -/
def digitStep (a : Nat) (c : Char) : Nat := 10 * a + (c.toNat - 48)

/-- Model of `(Number(s) || 0)` as the source's `hmsToSec` applies it to one
colon-separated field: a non-empty all-digit field denotes its decimal
value, everything else (empty string, missing field, non-numeric text, i.e.
the cases where `Number` gives `0` or `NaN`) contributes `0`.  This is
exact on the `H:MM:SS` strings the program itself produces. -/
def numOr0 (cs : List Char) : Nat :=
  if cs.isEmpty || !cs.all isDigitChar then 0 else cs.foldl digitStep 0

/-- Model of the source's `hmsToSec`: split on `:`, convert the first three
fields with `Number`, and combine as hours, minutes, seconds (a missing or
non-numeric field counts as 0 via `x || 0`). -/
def hmsToSec (cs : List Char) : Nat :=
  let ps := splitColon cs
  numOr0 (ps.getD 0 []) * 3600 + numOr0 (ps.getD 1 []) * 60 + numOr0 (ps.getD 2 [])

/-- Claim-side decoder for a `MM:SS` string: minutes and seconds fields read
back as a number of seconds.  Used only to state what "an anchor value
expressed as minutes:seconds" denotes. -/
def mmssVal (cs : List Char) : Int :=
  let ps := splitColon cs
  (numOr0 (ps.getD 0 []) * 60 + numOr0 (ps.getD 1 []) : Nat)

/-! ### The Duration Parser -/

/-- Abstraction of a raw user-input string as far as `normalizeInt` can
observe it: whether its trimmed form is empty, and what the JavaScript
`Number(...)` conversion yields on it — `none` for `NaN`/`±Infinity`
(non-numeric input), `some q` for a finite value `q`. -/
structure JSInput where
  trimEmpty : Bool
  num : Option ℚ

/-- Model of the source's `normalizeInt`: empty (after trim) input is 0;
otherwise non-finite or negative `Number` results give 0 and finite
non-negative results are floored. -/
def normalizeInt (v : JSInput) : Int :=
  if v.trimEmpty then 0
  else
    match v.num with
    | none => 0
    | some q => if 0 ≤ q then ⌊q⌋ else 0

/-- Model of the source's `toSecMarch` / `toSec`: minutes and seconds fields
normalized and combined into seconds. -/
def toSecMarch (m s : JSInput) : Int := normalizeInt m * 60 + normalizeInt s

/-! ### The Schedule Builder — calculate-from-now (skew-maximizing) mode -/

/-- One entry of `marchesWithSec`: a participant name together with the
already-normalized march duration in seconds (`totalSec`). -/
structure MarchInput where
  name : List Char
  totalSec : Int
deriving DecidableEq

/-- An output row of the calculate-from-now planner.  The source's `PlanRow`
stores the formatted `arrivalTime`/`sendTime`/`rallyStartTime` strings; the
row here additionally records the absolute epochs (`arrivalAbsEpoch` and
friends in the source's `onCalculate`) from which those strings are
formatted. -/
structure PlanRow where
  seq : Nat
  name : List Char
  durationSec : Int
  durationHMS : List Char
  arrivalEpoch : Int
  sendEpoch : Int
  rallyStartEpoch : Int
  arrivalTime : List Char
  sendTime : List Char
  rallyStartTime : List Char
  offsetSec : Int
  startDeltaSec : Int
deriving DecidableEq

/-- Fixed gap between consecutive arrivals, in seconds. -/
def GAP_SECONDS : Int := 2

/-- Fixed rally-preparation duration (5 minutes), in seconds. -/
def RALLY_PREP_SECONDS : Int := 5 * 60

/-- Minimum readiness buffer between "now" and any rally start, in seconds. -/
def READINESS_SECONDS : Int := 40

/-- The source's `maxSkew` reduction:
`active.reduce((acc, m, idx) => Math.max(acc, m.totalSec - idx * GAP_SECONDS), 0)`
unrolled with an explicit index. -/
def maxSkewFrom (acc : Int) (idx : Nat) : List MarchInput → Int
  | [] => acc
  | m :: rest => maxSkewFrom (max acc (m.totalSec - idx * GAP_SECONDS)) (idx + 1) rest

/-- The maximum of `d_i - i·G` over the active list (seeded with 0, as in the
source). -/
def maxSkew (active : List MarchInput) : Int := maxSkewFrom 0 0 active

/-- The default display name `Leader ⟨n⟩`. -/
def defaultName (n : Nat) : List Char := lit "Leader " ++ natChars n

/-- Model of `m.name || `Leader ...``: the empty string is falsy. -/
def nameOr (name : List Char) (n : Nat) : List Char :=
  if name.isEmpty then defaultName n else name

/-- The first arrival epoch chosen by the skew-maximizing mode. -/
def firstArrivalAbs (nowEpoch : Int) (active : List MarchInput) : Int :=
  nowEpoch + READINESS_SECONDS + RALLY_PREP_SECONDS + maxSkew active

/-- The row built for the participant at 0-based position `idx` of the active
list, given the first arrival epoch and the first participant's duration. -/
def mkRow (firstArrival firstDuration : Int) (idx : Nat) (m : MarchInput) : PlanRow :=
  let arrivalAbsEpoch := firstArrival + idx * GAP_SECONDS
  let sendAbsEpoch := arrivalAbsEpoch - m.totalSec
  let rallyStartAbsEpoch := sendAbsEpoch - RALLY_PREP_SECONDS
  { seq := idx + 1
    name := nameOr m.name (idx + 1)
    durationSec := m.totalSec
    durationHMS := hms m.totalSec
    arrivalEpoch := arrivalAbsEpoch
    sendEpoch := sendAbsEpoch
    rallyStartEpoch := rallyStartAbsEpoch
    arrivalTime := fmtEpoch arrivalAbsEpoch
    sendTime := fmtEpoch sendAbsEpoch
    rallyStartTime := fmtEpoch rallyStartAbsEpoch
    offsetSec := idx * GAP_SECONDS
    startDeltaSec := idx * GAP_SECONDS - (m.totalSec - firstDuration) }

/-- `active.map((m, idx) => ...)` unrolled with an explicit index. -/
def planRowsFrom (firstArrival firstDuration : Int) (idx : Nat) :
    List MarchInput → List PlanRow
  | [] => []
  | m :: rest =>
      mkRow firstArrival firstDuration idx m ::
        planRowsFrom firstArrival firstDuration (idx + 1) rest

/-- The rows computed by the calculate-from-now `onCalculate` for a given
active list (`firstDuration` is `active[0].totalSec`, defaulted to 0 on the
empty list, which the caller rules out). -/
def planRows (nowEpoch : Int) (active : List MarchInput) : List PlanRow :=
  planRowsFrom (firstArrivalAbs nowEpoch active)
    ((active.head?.map MarchInput.totalSec).getD 0) 0 active

/-- The component state touched by `onCalculate`: the displayed plan
(`null` = no plan) and the advisory notice. -/
structure PlannerState where
  plan : Option (List PlanRow)
  note : List Char
deriving DecidableEq

/-- The notice shown when no active march exists. -/
def noteNoMarch : List Char := lit "Add at least one march with non-zero time."

/-- The notice shown with a successful calculate-from-now plan. -/
def noteSpaced : List Char :=
  lit "Arrivals are evenly spaced by 2s. All rally starts are ≥40s from now."

/-- Model of the calculate-from-now `onCalculate`: filter the zero-duration
marches, bail out with a notice when none is left (setting the plan to
`null`), otherwise replace the plan with the computed rows.  The previous
state is replaced wholesale on both branches, as by `setPlan`/`setNote`. -/
def onCalculate (nowEpoch : Int) (marchesWithSec : List MarchInput)
    (_prev : PlannerState) : PlannerState :=
  let active := marchesWithSec.filter (fun m => 0 < m.totalSec)
  if active.isEmpty then
    { plan := none, note := noteNoMarch }
  else
    let rows := planRows nowEpoch active
    { plan := some rows, note := if rows.isEmpty then [] else noteSpaced }

end RallyTime

namespace RallyTime.Target

/-! ### The Schedule Builder — fixed-target variant (`src/App.tsx`) -/

/-- An output row of the fixed-target planner (no start delta in this
variant); epochs recorded alongside the formatted strings as in `PlanRow`. -/
structure PlanRow where
  seq : Nat
  name : List Char
  durationSec : Int
  durationHMS : List Char
  arrivalEpoch : Int
  sendEpoch : Int
  rallyStartEpoch : Int
  arrivalTime : List Char
  sendTime : List Char
  rallyStartTime : List Char
  offsetSec : Int
deriving DecidableEq

/-- Minimum lead time required before the target arrival (7 minutes). -/
def MIN_LEAD : Int := 7 * 60

/-- Midnight (00:00:00 UTC) of the day containing `nowEpoch`:
the source's `Date.UTC(now.getUTCFullYear(), now.getUTCMonth(),
now.getUTCDate(), h, m, s) / 1000` equals this value plus
`3600·h + 60·m + s` (Unix time has no leap seconds). -/
def todayMidnight (nowEpoch : Int) : Int := nowEpoch - nowEpoch % 86400

/-- Today's occurrence of the entered target clock time. -/
def targetEpochToday (nowEpoch : Int) (vH vM vS : JSInput) : Int :=
  todayMidnight nowEpoch +
    normalizeInt vH * 3600 + normalizeInt vM * 60 + normalizeInt vS

/-- The next occurrence of the target time: advanced by 24 hours when
today's occurrence is strictly before now. -/
def rolledTarget (nowEpoch : Int) (vH vM vS : JSInput) : Int :=
  let t := targetEpochToday nowEpoch vH vM vS
  if t < nowEpoch then t + 24 * 3600 else t

/-- The rejection notice, naming the earliest allowed target time. -/
def noteTooSoon (earliest : Int) : List Char :=
  lit "Target arrival must be at least 7 minutes in the future. Earliest allowed: "
    ++ fmtEpoch earliest ++ lit " UTC."

/-- The success notice of the fixed-target variant. -/
def notePlanned (n : Nat) : List Char :=
  lit "Planned " ++ natChars n
    ++ lit " rallies at 2s spacing using your chosen order (top to bottom)."

/-- The row built for position `idx` in the fixed-target variant:
`arrival_i = target + i·G`, with no readiness shift. -/
def mkRow (targetEpoch : Int) (idx : Nat) (m : MarchInput) : PlanRow :=
  let offsetSec := idx * GAP_SECONDS
  let arrivalAbsEpoch := targetEpoch + offsetSec
  let sendAbsEpoch := arrivalAbsEpoch - m.totalSec
  let rallyStartAbsEpoch := sendAbsEpoch - RALLY_PREP_SECONDS
  { seq := idx + 1
    name := nameOr m.name (idx + 1)
    durationSec := m.totalSec
    durationHMS := hms m.totalSec
    arrivalEpoch := arrivalAbsEpoch
    sendEpoch := sendAbsEpoch
    rallyStartEpoch := rallyStartAbsEpoch
    arrivalTime := fmtEpoch arrivalAbsEpoch
    sendTime := fmtEpoch sendAbsEpoch
    rallyStartTime := fmtEpoch rallyStartAbsEpoch
    offsetSec := offsetSec }

/-- `active.map((m, idx) => ...)` of the fixed-target variant, unrolled with
an explicit index. -/
def planRowsFrom (targetEpoch : Int) (idx : Nat) : List MarchInput → List PlanRow
  | [] => []
  | m :: rest => mkRow targetEpoch idx m :: planRowsFrom targetEpoch (idx + 1) rest

/-- The rows computed by the fixed-target `onCalculate`. -/
def planRows (targetEpoch : Int) (active : List MarchInput) : List PlanRow :=
  planRowsFrom targetEpoch 0 active

/-- The fixed-target planner's component state. -/
structure PlannerState where
  plan : Option (List PlanRow)
  note : List Char
deriving DecidableEq

/-- Model of the fixed-target `onCalculate`: build today's occurrence of the
entered clock time, roll it forward a day if already passed, reject it
(clearing the plan) when less than `MIN_LEAD` from now, and otherwise
replace the plan with rows arriving at `target + i·G`. -/
def onCalculate (nowEpoch : Int) (vH vM vS : JSInput)
    (marchesWithSec : List MarchInput) (_prev : PlannerState) : PlannerState :=
  let targetEpoch := rolledTarget nowEpoch vH vM vS
  if targetEpoch - nowEpoch < MIN_LEAD then
    { plan := none, note := noteTooSoon (nowEpoch + MIN_LEAD) }
  else
    let active := marchesWithSec.filter (fun m => 0 < m.totalSec)
    let rows := planRows targetEpoch active
    { plan := some rows, note := if rows.isEmpty then [] else notePlanned rows.length }

end RallyTime.Target

namespace RallyTime

/-! ### The Verification Summary -/

/-- Model of the source's `ordinal`: the first ten ordinal words, falling
back to `⟨n⟩th` (also for 0, where `words[-1]` is `undefined`). -/
def ordinal (n : Nat) : List Char :=
  match n with
  | 1 => lit "first"
  | 2 => lit "second"
  | 3 => lit "third"
  | 4 => lit "fourth"
  | 5 => lit "fifth"
  | 6 => lit "sixth"
  | 7 => lit "seventh"
  | 8 => lit "eighth"
  | 9 => lit "ninth"
  | 10 => lit "tenth"
  | _ => natChars n ++ lit "th"

/-- The sort key of the "appearance order": the rally-start display time
parsed back to seconds of day. -/
def appearKey (r : PlanRow) : Nat := hmsToSec r.rallyStartTime

/-- The comparator `(a, b) => hmsToSec(a.rallyStartTime) - hmsToSec(b.rallyStartTime)`
as the total preorder it sorts by. -/
def appearLE (a b : PlanRow) : Prop := appearKey a ≤ appearKey b

instance : DecidableRel appearLE := fun _ _ => Nat.decLe _ _

instance : IsTotal PlanRow appearLE := ⟨fun _ _ => Nat.le_total _ _⟩

instance : IsTrans PlanRow appearLE := ⟨fun _ _ _ => Nat.le_trans⟩

instance : IsRefl PlanRow appearLE := ⟨fun _ => Nat.le_refl _⟩

/-- Model of `[...rows].sort((a, b) => keyA - keyB)`: JavaScript's sort is
stable and here ascending in the key, so it computes the (unique) stable
ascending reordering, which insertion sort on the total preorder
`appearLE` also computes. -/
def byAppear (rows : List PlanRow) : List PlanRow := List.insertionSort appearLE rows

/-- The source's `delta` local: the current row's parsed rally-start display
time minus the previous row's. -/
def summaryDelta (p r : PlanRow) : Int :=
  (hmsToSec r.rallyStartTime : Int) - (hmsToSec p.rallyStartTime : Int)

/-- The source's `unit` local: singular for one second. -/
def summaryUnit (a : Nat) : List Char := if a = 1 then lit "second" else lit "seconds"

/-- The source's `moreOrLess` local. -/
def summaryMoreLess (delta : Int) : List Char :=
  if 0 ≤ delta then lit "more" else lit "less"

/-- The source's `anchor` local: `mmss(5*60 - abs)`. -/
def summaryAnchor (delta : Int) : List Char := mmss (5 * 60 - |delta|)

/-- An apostrophe, as it appears inside the summary line text. -/
def apos : Char := Char.ofNat 39

/-- The summary line pushed for the participant at appearance position
`i ≥ 1` with predecessor `p`. -/
def summaryLine (i : Nat) (p r : PlanRow) : List Char :=
  let delta := summaryDelta p r
  let a := |delta|
  lit "- " ++ nameOr r.name (i + 1) ++ lit " appear " ++ ordinal (i + 1)
    ++ lit ", rally shows " ++ natChars a.toNat ++ lit " " ++ summaryUnit a.toNat
    ++ lit " " ++ summaryMoreLess delta ++ lit " than " ++ p.name
    ++ lit " (should appear when " ++ p.name ++ (apos :: lit "s rally at ")
    ++ summaryAnchor delta ++ lit ")"

/-- The summary line pushed for the first participant in appearance order. -/
def summaryHead (r : PlanRow) : List Char :=
  lit "- " ++ nameOr r.name 1 ++ lit " appear " ++ ordinal 1 ++ lit "."

/-- The summary loop from position `i` on, with `p` the previous row in
appearance order. -/
def summaryLinesFrom (i : Nat) (p : PlanRow) : List PlanRow → List (List Char)
  | [] => []
  | r :: rest => summaryLine i p r :: summaryLinesFrom (i + 1) r rest

/-- All summary lines, in appearance order.  (The source also ranks rows by
arrival time into `hitRank`, but the resulting `hitOrd` value is not used in
any pushed line, so it does not affect the output.) -/
def summaryLines (rows : List PlanRow) : List (List Char) :=
  match byAppear rows with
  | [] => []
  | r :: rest => summaryHead r :: summaryLinesFrom 1 r rest

/-- `lines.join("\n")`. -/
def joinLines : List (List Char) → List Char
  | [] => []
  | [l] => l
  | l :: ls => l ++ '\n' :: joinLines ls

/-- Model of the source's `summary`: empty for an empty plan, otherwise the
lines joined by newlines. -/
def summary (rows : List PlanRow) : List Char :=
  if rows.isEmpty then [] else joinLines (summaryLines rows)

/-- A placeholder march used as the default of `List.getD`. -/
def dummyMarch : MarchInput := { name := [], totalSec := 0 }

/-- A placeholder plan row used as the default of `List.getD`. -/
def dummyRow : PlanRow := mkRow 0 0 0 dummyMarch

/-- A placeholder fixed-target plan row used as the default of `List.getD`. -/
def dummyRowT : Target.PlanRow := Target.mkRow 0 0 dummyMarch

/-- The participant list of the spec's worked scenario: durations 30 s,
90 s and 10 s. -/
def demoActive : List MarchInput :=
  [{ name := lit "A", totalSec := 30 },
   { name := lit "B", totalSec := 90 },
   { name := lit "C", totalSec := 10 }]

/-- A mixed participant list: two zero-duration rows interleaved with two
positive ones. -/
def demoMixed : List MarchInput :=
  [{ name := lit "A", totalSec := 0 },
   { name := lit "B", totalSec := 30 },
   { name := lit "C", totalSec := 0 },
   { name := lit "D", totalSec := 90 }]

/-- A participant list whose two march durations differ by far more than the
5-minute rally preparation (1 s versus 1000 s). -/
def demoWide : List MarchInput :=
  [{ name := lit "A", totalSec := 1 }, { name := lit "B", totalSec := 1000 }]

/-- A raw input whose trimmed text is empty (normalizes to 0). -/
def demoEmptyInput : JSInput := { trimEmpty := true, num := some 0 }

/-- A raw input that `Number` parses as the finite value 7/2. -/
def demoFracInput : JSInput := { trimEmpty := false, num := some (7 / 2) }

/-! ### Lemmas about decimal rendering and parsing -/

theorem digitChar_toNat {d : Nat} (h : d < 10) : (digitChar d).toNat = 48 + d := by
  interval_cases d <;> rfl

theorem isDigitChar_digitChar {d : Nat} (h : d < 10) : isDigitChar (digitChar d) = true := by
  interval_cases d <;> rfl

theorem natCharsCore_succ (fuel n : Nat) :
    natCharsCore (fuel + 1) n =
      if n < 10 then [digitChar n]
      else natCharsCore fuel (n / 10) ++ [digitChar (n % 10)] := rfl

theorem natCharsCore_spec :
    ∀ fuel n : Nat, n ≤ fuel →
      natCharsCore (fuel + 1) n ≠ [] ∧
      (natCharsCore (fuel + 1) n).all isDigitChar = true ∧
      ∀ a : Nat, (natCharsCore (fuel + 1) n).foldl digitStep a =
        a * 10 ^ (natCharsCore (fuel + 1) n).length + n := by
  intro fuel
  induction fuel with
  | zero =>
      intro n hn
      have hn0 : n = 0 := Nat.le_zero.mp hn
      subst hn0
      have heq : natCharsCore 1 0 = [digitChar 0] := rfl
      rw [heq]
      refine ⟨by simp, by simp [isDigitChar, digitChar], ?_⟩
      intro a
      have h48 : (digitChar 0).toNat = 48 := rfl
      simp only [List.foldl_cons, List.foldl_nil, List.length_cons,
        List.length_nil, digitStep, h48, pow_one]
      omega
  | succ fuel ih =>
      intro n hn
      by_cases hsmall : n < 10
      · rw [natCharsCore_succ, if_pos hsmall]
        refine ⟨by simp, by simp [isDigitChar_digitChar hsmall], ?_⟩
        intro a
        simp only [List.foldl_cons, List.foldl_nil, List.length_cons, List.length_nil,
          digitStep, digitChar_toNat hsmall, pow_one]
        omega
      · have hdiv : n / 10 ≤ fuel := by omega
        obtain ⟨hne, hall, hfold⟩ := ih (n / 10) hdiv
        have hmod : n % 10 < 10 := Nat.mod_lt _ (by omega)
        rw [natCharsCore_succ, if_neg hsmall]
        refine ⟨by simp, ?_, ?_⟩
        · simp only [List.all_append, Bool.and_eq_true]
          exact ⟨hall, by simp [isDigitChar_digitChar hmod]⟩
        · intro a
          rw [List.foldl_append, hfold a]
          simp only [List.foldl_cons, List.foldl_nil, List.length_append,
            List.length_cons, List.length_nil, digitStep, digitChar_toNat hmod]
          rw [pow_succ]
          have hrearr : a * (10 ^ (natCharsCore (fuel + 1) (n / 10)).length * 10) =
              a * 10 ^ (natCharsCore (fuel + 1) (n / 10)).length * 10 := by ring
          rw [hrearr]
          have hdm : 10 * (n / 10) + n % 10 = n := Nat.div_add_mod n 10
          omega

theorem natChars_ne_nil (n : Nat) : natChars n ≠ [] :=
  (natCharsCore_spec n n le_rfl).1

theorem natChars_all_digits (n : Nat) : (natChars n).all isDigitChar = true :=
  (natCharsCore_spec n n le_rfl).2.1

theorem natChars_foldl (n : Nat) : (natChars n).foldl digitStep 0 = n := by
  have h := (natCharsCore_spec n n le_rfl).2.2 0
  simpa [natChars] using h

theorem isEmpty_eq_false_of_ne_nil {α : Type} {l : List α} (h : l ≠ []) :
    l.isEmpty = false := by
  cases l with
  | nil => exact absurd rfl h
  | cons a t => rfl

theorem numOr0_eq_foldl {cs : List Char} (h1 : cs.isEmpty = false)
    (h2 : cs.all isDigitChar = true) : numOr0 cs = cs.foldl digitStep 0 := by
  unfold numOr0
  rw [h1, h2]
  rfl

theorem numOr0_natChars (n : Nat) : numOr0 (natChars n) = n := by
  rw [numOr0_eq_foldl (isEmpty_eq_false_of_ne_nil (natChars_ne_nil n))
    (natChars_all_digits n), natChars_foldl n]

theorem foldl_digitStep_replicate_zero (k : Nat) (cs : List Char) :
    (List.replicate k '0' ++ cs).foldl digitStep 0 = cs.foldl digitStep 0 := by
  induction k with
  | zero => rfl
  | succ k ih =>
      have : List.replicate (k + 1) '0' ++ cs = '0' :: (List.replicate k '0' ++ cs) := by
        simp [List.replicate_succ]
      rw [this]
      simpa [digitStep] using ih

theorem numOr0_zeroPad2 (n : Nat) : numOr0 (zeroPad2 n) = n := by
  unfold zeroPad2
  by_cases h : 2 ≤ (natChars n).length
  · simpa [h] using numOr0_natChars n
  · rw [if_neg h]
    have hall : (List.replicate (2 - (natChars n).length) '0' ++ natChars n).all
        isDigitChar = true := by
      simp only [List.all_append, Bool.and_eq_true]
      refine ⟨?_, natChars_all_digits n⟩
      simp only [List.all_eq_true]
      intro c hc
      have := List.eq_of_mem_replicate hc
      subst this
      rfl
    have hne : (List.replicate (2 - (natChars n).length) '0' ++ natChars n).isEmpty = false := by
      refine isEmpty_eq_false_of_ne_nil ?_
      intro habs
      exact natChars_ne_nil n (List.append_eq_nil.mp habs).2
    rw [numOr0_eq_foldl hne hall, foldl_digitStep_replicate_zero, natChars_foldl n]

theorem no_colon_of_all_digits {cs : List Char} (h : cs.all isDigitChar = true) :
    ':' ∉ cs := by
  intro hmem
  have := List.all_eq_true.mp h ':' hmem
  exact absurd this (by decide)

theorem natChars_no_colon (n : Nat) : ':' ∉ natChars n :=
  no_colon_of_all_digits (natChars_all_digits n)

theorem zeroPad2_no_colon (n : Nat) : ':' ∉ zeroPad2 n := by
  unfold zeroPad2
  by_cases h : 2 ≤ (natChars n).length
  · simpa [h] using natChars_no_colon n
  · rw [if_neg h]
    intro hmem
    rcases List.mem_append.mp hmem with hmem | hmem
    · exact absurd (List.eq_of_mem_replicate hmem) (by decide)
    · exact natChars_no_colon n hmem

theorem splitColon_no_colon : ∀ {cs : List Char}, ':' ∉ cs → splitColon cs = [cs] := by
  intro cs
  induction cs with
  | nil => intro _; rfl
  | cons c rest ih =>
      intro h
      have hc : ¬c = ':' := fun hc => h (hc ▸ List.mem_cons_self c rest)
      have hrest : ':' ∉ rest := fun hr => h (List.mem_cons_of_mem c hr)
      simp only [splitColon, if_neg hc, ih hrest, List.headD, List.tail]

theorem splitColon_append :
    ∀ {a : List Char} (rest : List Char), ':' ∉ a →
      splitColon (a ++ ':' :: rest) = a :: splitColon rest := by
  intro a
  induction a with
  | nil => intro rest _; simp [splitColon]
  | cons c a' ih =>
      intro rest h
      have hc : ¬c = ':' := fun hc => h (hc ▸ List.mem_cons_self c a')
      have ha' : ':' ∉ a' := fun hr => h (List.mem_cons_of_mem c hr)
      have ih' : splitColon (List.append a' (':' :: rest)) = a' :: splitColon rest :=
        ih rest ha'
      simp only [List.cons_append, splitColon, if_neg hc, ih rest ha', ih',
        List.headD, List.tail]

theorem hmsToSec_parts {x y z : List Char} (hx : ':' ∉ x) (hy : ':' ∉ y) (hz : ':' ∉ z) :
    hmsToSec (x ++ ':' :: (y ++ ':' :: z)) =
      numOr0 x * 3600 + numOr0 y * 60 + numOr0 z := by
  unfold hmsToSec
  rw [splitColon_append (y ++ ':' :: z) hx, splitColon_append z hy, splitColon_no_colon hz]
  rfl

/-- C8: for every non-negative integer `n`, formatting `n` seconds as
`H:MM:SS` with `hms` and reconstructing seconds with `hmsToSec` returns
exactly `n`. -/
theorem hmsToSec_hms_roundtrip (t : Nat) : hmsToSec (hms (t : Int)) = t := by
  have heq : hms (t : Int) =
      natChars (t / 3600) ++ ':' :: (zeroPad2 (t % 3600 / 60) ++ ':' :: zeroPad2 (t % 60)) := by
    unfold hms
    rw [Int.toNat_natCast]
    simp [List.append_assoc]
  rw [heq, hmsToSec_parts (natChars_no_colon _) (zeroPad2_no_colon _) (zeroPad2_no_colon _),
    numOr0_natChars, numOr0_zeroPad2, numOr0_zeroPad2]
  have h1 : 3600 * (t / 3600) + t % 3600 = t := Nat.div_add_mod t 3600
  have h2 : 60 * (t % 3600 / 60) + t % 3600 % 60 = t % 3600 := Nat.div_add_mod (t % 3600) 60
  have h3 : t % 3600 % 60 = t % 60 := Nat.mod_mod_of_dvd t (by norm_num)
  omega

theorem mmssVal_mmss (x : Int) : mmssVal (mmss x) = max 0 x := by
  have heq : mmss x = zeroPad2 (x.toNat / 60) ++ ':' :: zeroPad2 (x.toNat % 60) := rfl
  have hsplit : splitColon (mmss x) =
      [zeroPad2 (x.toNat / 60), zeroPad2 (x.toNat % 60)] := by
    rw [heq, splitColon_append _ (zeroPad2_no_colon _), splitColon_no_colon (zeroPad2_no_colon _)]
  unfold mmssVal
  rw [hsplit]
  have g0 : [zeroPad2 (x.toNat / 60), zeroPad2 (x.toNat % 60)].getD 0 [] =
      zeroPad2 (x.toNat / 60) := rfl
  have g1 : [zeroPad2 (x.toNat / 60), zeroPad2 (x.toNat % 60)].getD 1 [] =
      zeroPad2 (x.toNat % 60) := rfl
  simp only [g0, g1, numOr0_zeroPad2]
  have h1 : 60 * (x.toNat / 60) + x.toNat % 60 = x.toNat := Nat.div_add_mod x.toNat 60
  have h2 : ((x.toNat : Int)) = max 0 x := by
    rw [Int.toNat_eq_max]
    exact max_comm x 0
  rw [← h2]
  omega

/-! ### Lemmas about the Schedule Builder -/

theorem planRowsFrom_length (F d0 : Int) :
    ∀ (idx : Nat) (l : List MarchInput), (planRowsFrom F d0 idx l).length = l.length := by
  intro idx l
  induction l generalizing idx with
  | nil => rfl
  | cons m rest ih => simp [planRowsFrom, ih]

theorem planRowsFrom_getD (F d0 : Int) :
    ∀ (l : List MarchInput) (idx i : Nat), i < l.length →
      (planRowsFrom F d0 idx l).getD i dummyRow = mkRow F d0 (idx + i) (l.getD i dummyMarch) := by
  intro l
  induction l with
  | nil => intro idx i h; exact absurd h (by simp)
  | cons m rest ih =>
      intro idx i h
      cases i with
      | zero => simp [planRowsFrom]
      | succ i =>
          have hlt : i < rest.length := by simpa using h
          have := ih (idx + 1) i hlt
          simp only [planRowsFrom, List.getD_cons_succ, this]
          have harith : idx + 1 + i = idx + (i + 1) := by omega
          rw [harith]

theorem planRowsFrom_map_durationSec (F d0 : Int) :
    ∀ (idx : Nat) (l : List MarchInput),
      (planRowsFrom F d0 idx l).map PlanRow.durationSec = l.map MarchInput.totalSec := by
  intro idx l
  induction l generalizing idx with
  | nil => rfl
  | cons m rest ih => simp [planRowsFrom, mkRow, ih]

theorem planRows_length (nowEpoch : Int) (active : List MarchInput) :
    (planRows nowEpoch active).length = active.length :=
  planRowsFrom_length _ _ 0 active

theorem planRows_map_durationSec (nowEpoch : Int) (active : List MarchInput) :
    (planRows nowEpoch active).map PlanRow.durationSec = active.map MarchInput.totalSec :=
  planRowsFrom_map_durationSec _ _ 0 active

theorem planRows_getD (nowEpoch : Int) (active : List MarchInput) (i : Nat)
    (h : i < active.length) :
    (planRows nowEpoch active).getD i dummyRow =
      mkRow (firstArrivalAbs nowEpoch active)
        ((active.head?.map MarchInput.totalSec).getD 0) i (active.getD i dummyMarch) := by
  have := planRowsFrom_getD (firstArrivalAbs nowEpoch active)
    ((active.head?.map MarchInput.totalSec).getD 0) active 0 i h
  simpa [planRows] using this

theorem head_totalSec_of_ne_nil {active : List MarchInput} (h : active ≠ []) :
    (active.head?.map MarchInput.totalSec).getD 0 = (active.getD 0 dummyMarch).totalSec := by
  cases active with
  | nil => exact absurd rfl h
  | cons m rest => rfl

namespace Target

theorem planRowsFromT_length (T : Int) :
    ∀ (idx : Nat) (l : List MarchInput), (planRowsFrom T idx l).length = l.length := by
  intro idx l
  induction l generalizing idx with
  | nil => rfl
  | cons m rest ih => simp [planRowsFrom, ih]

theorem planRowsFromT_getD (T : Int) :
    ∀ (l : List MarchInput) (idx i : Nat), i < l.length →
      (planRowsFrom T idx l).getD i dummyRowT = mkRow T (idx + i) (l.getD i dummyMarch) := by
  intro l
  induction l with
  | nil => intro idx i h; exact absurd h (by simp)
  | cons m rest ih =>
      intro idx i h
      cases i with
      | zero => simp [planRowsFrom]
      | succ i =>
          have hlt : i < rest.length := by simpa using h
          have := ih (idx + 1) i hlt
          simp only [planRowsFrom, List.getD_cons_succ, this]
          have harith : idx + 1 + i = idx + (i + 1) := by omega
          rw [harith]

theorem planRowsT_length (T : Int) (active : List MarchInput) :
    (planRows T active).length = active.length :=
  planRowsFromT_length T 0 active

theorem planRowsT_getD (T : Int) (active : List MarchInput) (i : Nat)
    (h : i < active.length) :
    (planRows T active).getD i dummyRowT = mkRow T i (active.getD i dummyMarch) := by
  have := planRowsFromT_getD T active 0 i h
  simpa [planRows] using this

end Target

/-! ### Lemmas about the maximum skew -/

theorem le_maxSkewFrom : ∀ (l : List MarchInput) (acc : Int) (idx : Nat),
    acc ≤ maxSkewFrom acc idx l := by
  intro l
  induction l with
  | nil => intro acc idx; exact le_rfl
  | cons m rest ih =>
      intro acc idx
      exact le_trans (le_max_left _ _) (ih _ (idx + 1))

theorem skew_le_maxSkewFrom : ∀ (l : List MarchInput) (acc : Int) (idx i : Nat),
    i < l.length →
    (l.getD i dummyMarch).totalSec - ((idx : Int) + i) * GAP_SECONDS ≤
      maxSkewFrom acc idx l := by
  intro l
  induction l with
  | nil => intro acc idx i h; exact absurd h (by simp)
  | cons m rest ih =>
      intro acc idx i h
      cases i with
      | zero =>
          simp only [List.getD_cons_zero, Nat.cast_zero, add_zero]
          calc m.totalSec - (idx : Int) * GAP_SECONDS
              ≤ max acc (m.totalSec - (idx : Int) * GAP_SECONDS) := le_max_right _ _
            _ ≤ maxSkewFrom (max acc (m.totalSec - (idx : Int) * GAP_SECONDS)) (idx + 1) rest :=
                le_maxSkewFrom rest _ (idx + 1)
      | succ i =>
          have hlt : i < rest.length := by simpa using h
          have hih := ih (max acc (m.totalSec - (idx : Int) * GAP_SECONDS)) (idx + 1) i hlt
          simp only [List.getD_cons_succ]
          calc (rest.getD i dummyMarch).totalSec - ((idx : Int) + (↑i + 1)) * GAP_SECONDS
              = (rest.getD i dummyMarch).totalSec - (((idx + 1 : Nat) : Int) + i) * GAP_SECONDS := by
                push_cast
                ring_nf
            _ ≤ maxSkewFrom (max acc (m.totalSec - (idx : Int) * GAP_SECONDS)) (idx + 1) rest := hih
            _ = maxSkewFrom acc idx (m :: rest) := rfl

theorem maxSkewFrom_attained : ∀ (l : List MarchInput) (acc : Int) (idx : Nat),
    maxSkewFrom acc idx l = acc ∨
    ∃ i, i < l.length ∧
      maxSkewFrom acc idx l = (l.getD i dummyMarch).totalSec - ((idx : Int) + i) * GAP_SECONDS := by
  intro l
  induction l with
  | nil => intro acc idx; exact Or.inl rfl
  | cons m rest ih =>
      intro acc idx
      rcases ih (max acc (m.totalSec - (idx : Int) * GAP_SECONDS)) (idx + 1) with h | ⟨i, hi, h⟩
      · rcases max_choice acc (m.totalSec - (idx : Int) * GAP_SECONDS) with hmax | hmax
        · exact Or.inl (by rw [show maxSkewFrom acc idx (m :: rest) =
            maxSkewFrom (max acc (m.totalSec - (idx : Int) * GAP_SECONDS)) (idx + 1) rest
            from rfl, h, hmax])
        · refine Or.inr ⟨0, by simp, ?_⟩
          rw [show maxSkewFrom acc idx (m :: rest) =
            maxSkewFrom (max acc (m.totalSec - (idx : Int) * GAP_SECONDS)) (idx + 1) rest
            from rfl, h, hmax]
          simp
      · refine Or.inr ⟨i + 1, by simpa using hi, ?_⟩
        rw [show maxSkewFrom acc idx (m :: rest) =
          maxSkewFrom (max acc (m.totalSec - (idx : Int) * GAP_SECONDS)) (idx + 1) rest
          from rfl, h]
        simp only [List.getD_cons_succ]
        push_cast
        ring_nf

/-! ### Projections of a built plan row -/

theorem mkRow_seq (F d0 : Int) (idx : Nat) (m : MarchInput) :
    (mkRow F d0 idx m).seq = idx + 1 := rfl

theorem mkRow_durationSec (F d0 : Int) (idx : Nat) (m : MarchInput) :
    (mkRow F d0 idx m).durationSec = m.totalSec := rfl

theorem mkRow_arrivalEpoch (F d0 : Int) (idx : Nat) (m : MarchInput) :
    (mkRow F d0 idx m).arrivalEpoch = F + idx * GAP_SECONDS := rfl

theorem mkRow_sendEpoch (F d0 : Int) (idx : Nat) (m : MarchInput) :
    (mkRow F d0 idx m).sendEpoch = F + idx * GAP_SECONDS - m.totalSec := rfl

theorem mkRow_rallyStartEpoch (F d0 : Int) (idx : Nat) (m : MarchInput) :
    (mkRow F d0 idx m).rallyStartEpoch =
      F + idx * GAP_SECONDS - m.totalSec - RALLY_PREP_SECONDS := rfl

theorem mkRow_startDeltaSec (F d0 : Int) (idx : Nat) (m : MarchInput) :
    (mkRow F d0 idx m).startDeltaSec =
      idx * GAP_SECONDS - (m.totalSec - d0) := rfl

theorem mkRowT_seq (T : Int) (idx : Nat) (m : MarchInput) :
    (Target.mkRow T idx m).seq = idx + 1 := rfl

theorem mkRowT_durationSec (T : Int) (idx : Nat) (m : MarchInput) :
    (Target.mkRow T idx m).durationSec = m.totalSec := rfl

theorem mkRowT_arrivalEpoch (T : Int) (idx : Nat) (m : MarchInput) :
    (Target.mkRow T idx m).arrivalEpoch = T + idx * GAP_SECONDS := rfl

theorem mkRowT_sendEpoch (T : Int) (idx : Nat) (m : MarchInput) :
    (Target.mkRow T idx m).sendEpoch = T + idx * GAP_SECONDS - m.totalSec := rfl

theorem mkRowT_rallyStartEpoch (T : Int) (idx : Nat) (m : MarchInput) :
    (Target.mkRow T idx m).rallyStartEpoch =
      T + idx * GAP_SECONDS - m.totalSec - RALLY_PREP_SECONDS := rfl

/-! ### Claim C1 -/

/-- C1: in the skew-maximizing (calculate-from-now) mode, for every
non-empty active list with strictly positive march durations, the first
arrival epoch equals `reference + R + P + max_i(d_i - i·G)` (with `R = 40`,
`P = 300`, `G = 2`), and consequently every row's rally-start epoch is at
least `reference + R`. -/
theorem firstArrival_skew_and_floor (nowEpoch : Int) (active : List MarchInput)
    (hne : active ≠ []) (hpos : ∀ m ∈ active, 0 < m.totalSec) :
    READINESS_SECONDS = 40 ∧ RALLY_PREP_SECONDS = 300 ∧ GAP_SECONDS = 2 ∧
    (∃ M : Int,
      (∀ i : Nat, i < active.length →
        (active.getD i dummyMarch).totalSec - (i : Int) * GAP_SECONDS ≤ M) ∧
      (∃ i : Nat, i < active.length ∧
        (active.getD i dummyMarch).totalSec - (i : Int) * GAP_SECONDS = M) ∧
      firstArrivalAbs nowEpoch active =
        nowEpoch + READINESS_SECONDS + RALLY_PREP_SECONDS + M) ∧
    ∀ i : Nat, i < active.length →
      nowEpoch + READINESS_SECONDS ≤
        ((planRows nowEpoch active).getD i dummyRow).rallyStartEpoch := by
  have hub : ∀ i : Nat, i < active.length →
      (active.getD i dummyMarch).totalSec - (i : Int) * GAP_SECONDS ≤ maxSkew active := by
    intro i hi
    have h := skew_le_maxSkewFrom active 0 0 i hi
    simpa [maxSkew] using h
  have hlen0 : 0 < active.length := by
    cases active with
    | nil => exact absurd rfl hne
    | cons m rest => simp
  have hmem0 : active.getD 0 dummyMarch ∈ active := by
    have := List.getD_eq_getElem active dummyMarch hlen0
    rw [this]
    exact List.getElem_mem _
  have hpos0 : 0 < (active.getD 0 dummyMarch).totalSec := hpos _ hmem0
  refine ⟨rfl, rfl, rfl, ⟨maxSkew active, hub, ?_, rfl⟩, ?_⟩
  · rcases maxSkewFrom_attained active 0 0 with h0 | ⟨i, hi, h⟩
    · exfalso
      have hub0 := hub 0 hlen0
      have hms0 : maxSkew active = 0 := h0
      rw [hms0] at hub0
      simp only [Nat.cast_zero, zero_mul, sub_zero] at hub0
      omega
    · refine ⟨i, hi, ?_⟩
      have : maxSkew active =
          (active.getD i dummyMarch).totalSec - ((0 : Int) + i) * GAP_SECONDS := h
      rw [this]
      ring_nf
  · intro i hi
    rw [planRows_getD nowEpoch active i hi, mkRow_rallyStartEpoch]
    have hub_i := hub i hi
    simp only [firstArrivalAbs]
    linarith

/-! ### Claim C2 -/

/-- C2: in both the calculate-from-now and fixed-target variants, arrival
epochs of rows `i < j` differ by exactly `(j-i)·G`; in particular they are
strictly increasing in list order. -/
theorem arrival_spacing_exact (nowEpoch targetEpoch : Int) (active : List MarchInput)
    (i j : Nat) (hij : i < j) (hj : j < active.length) :
    (((planRows nowEpoch active).getD j dummyRow).arrivalEpoch -
        ((planRows nowEpoch active).getD i dummyRow).arrivalEpoch
        = ((j : Int) - (i : Int)) * GAP_SECONDS ∧
      ((planRows nowEpoch active).getD i dummyRow).arrivalEpoch <
        ((planRows nowEpoch active).getD j dummyRow).arrivalEpoch) ∧
    (((Target.planRows targetEpoch active).getD j dummyRowT).arrivalEpoch -
        ((Target.planRows targetEpoch active).getD i dummyRowT).arrivalEpoch
        = ((j : Int) - (i : Int)) * GAP_SECONDS ∧
      ((Target.planRows targetEpoch active).getD i dummyRowT).arrivalEpoch <
        ((Target.planRows targetEpoch active).getD j dummyRowT).arrivalEpoch) := by
  have hi : i < active.length := lt_trans hij hj
  have hij' : (i : Int) < (j : Int) := by exact_mod_cast hij
  rw [planRows_getD nowEpoch active i hi, planRows_getD nowEpoch active j hj,
    Target.planRowsT_getD targetEpoch active i hi, Target.planRowsT_getD targetEpoch active j hj,
    mkRow_arrivalEpoch, mkRow_arrivalEpoch, mkRowT_arrivalEpoch, mkRowT_arrivalEpoch]
  simp only [GAP_SECONDS]
  constructor
  · constructor
    · ring
    · omega
  · constructor
    · ring
    · omega

/-! ### Claim C3 -/

/-- C3: in every row of both variants, the send epoch is the arrival epoch
minus the march duration, and the rally-start epoch is the send epoch minus
the rally-preparation duration, hence arrival minus duration minus `P`. -/
theorem send_rally_equations (nowEpoch targetEpoch : Int) (active : List MarchInput)
    (i : Nat) (h : i < active.length) :
    (((planRows nowEpoch active).getD i dummyRow).sendEpoch =
        ((planRows nowEpoch active).getD i dummyRow).arrivalEpoch -
          ((planRows nowEpoch active).getD i dummyRow).durationSec ∧
      ((planRows nowEpoch active).getD i dummyRow).rallyStartEpoch =
        ((planRows nowEpoch active).getD i dummyRow).sendEpoch - RALLY_PREP_SECONDS ∧
      ((planRows nowEpoch active).getD i dummyRow).rallyStartEpoch =
        ((planRows nowEpoch active).getD i dummyRow).arrivalEpoch -
          ((planRows nowEpoch active).getD i dummyRow).durationSec - RALLY_PREP_SECONDS) ∧
    (((Target.planRows targetEpoch active).getD i dummyRowT).sendEpoch =
        ((Target.planRows targetEpoch active).getD i dummyRowT).arrivalEpoch -
          ((Target.planRows targetEpoch active).getD i dummyRowT).durationSec ∧
      ((Target.planRows targetEpoch active).getD i dummyRowT).rallyStartEpoch =
        ((Target.planRows targetEpoch active).getD i dummyRowT).sendEpoch -
          RALLY_PREP_SECONDS ∧
      ((Target.planRows targetEpoch active).getD i dummyRowT).rallyStartEpoch =
        ((Target.planRows targetEpoch active).getD i dummyRowT).arrivalEpoch -
          ((Target.planRows targetEpoch active).getD i dummyRowT).durationSec -
          RALLY_PREP_SECONDS) := by
  rw [planRows_getD nowEpoch active i h, Target.planRowsT_getD targetEpoch active i h]
  exact ⟨⟨rfl, rfl, rfl⟩, ⟨rfl, rfl, rfl⟩⟩

/-! ### Claim C4 -/

/-- C4: in the variants that report a start delta, row `i`'s `startDeltaSec`
equals `i·G - (d_i - d_0)`, which equals row `i`'s rally-start epoch minus
row 0's rally-start epoch. -/
theorem startDelta_formula (nowEpoch : Int) (active : List MarchInput)
    (i : Nat) (h : i < active.length) :
    ((planRows nowEpoch active).getD i dummyRow).startDeltaSec
        = (i : Int) * GAP_SECONDS -
          ((active.getD i dummyMarch).totalSec - (active.getD 0 dummyMarch).totalSec) ∧
    ((planRows nowEpoch active).getD i dummyRow).startDeltaSec
        = ((planRows nowEpoch active).getD i dummyRow).rallyStartEpoch -
          ((planRows nowEpoch active).getD 0 dummyRow).rallyStartEpoch := by
  have hne : active ≠ [] := by
    intro habs
    rw [habs] at h
    exact absurd h (by simp)
  have h0 : 0 < active.length := by omega
  rw [planRows_getD nowEpoch active i h, planRows_getD nowEpoch active 0 h0,
    head_totalSec_of_ne_nil hne]
  simp only [mkRow_startDeltaSec, mkRow_rallyStartEpoch]
  constructor
  · trivial
  · push_cast
    ring

/-! ### Claim C5 -/

/-- C5: in the fixed-target variant, the entered clock time is interpreted
as today's UTC occurrence; if strictly before now it is advanced by exactly
24 hours; a resulting target less than 7 minutes (420 s) after now produces
no plan and a notice naming `now + 420` formatted `HH:MM:SS UTC`; otherwise
every arrival is `target + i·G` with no readiness shift. -/
theorem target_mode_rules (nowEpoch : Int) (vH vM vS : JSInput)
    (marches : List MarchInput) (prev : Target.PlannerState) :
    Target.MIN_LEAD = 420 ∧
    Target.targetEpochToday nowEpoch vH vM vS =
      Target.todayMidnight nowEpoch +
        normalizeInt vH * 3600 + normalizeInt vM * 60 + normalizeInt vS ∧
    (Target.targetEpochToday nowEpoch vH vM vS < nowEpoch →
      Target.rolledTarget nowEpoch vH vM vS =
        Target.targetEpochToday nowEpoch vH vM vS + 24 * 3600) ∧
    (nowEpoch ≤ Target.targetEpochToday nowEpoch vH vM vS →
      Target.rolledTarget nowEpoch vH vM vS = Target.targetEpochToday nowEpoch vH vM vS) ∧
    (Target.rolledTarget nowEpoch vH vM vS - nowEpoch < 420 →
      (Target.onCalculate nowEpoch vH vM vS marches prev).plan = none ∧
      (Target.onCalculate nowEpoch vH vM vS marches prev).note =
        Target.noteTooSoon (nowEpoch + 420)) ∧
    (420 ≤ Target.rolledTarget nowEpoch vH vM vS - nowEpoch →
      (Target.onCalculate nowEpoch vH vM vS marches prev).plan =
        some (Target.planRows (Target.rolledTarget nowEpoch vH vM vS)
          (marches.filter (fun m => 0 < m.totalSec))) ∧
      ∀ i : Nat, i < (marches.filter (fun m => 0 < m.totalSec)).length →
        ((Target.planRows (Target.rolledTarget nowEpoch vH vM vS)
            (marches.filter (fun m => 0 < m.totalSec))).getD i dummyRowT).arrivalEpoch =
          Target.rolledTarget nowEpoch vH vM vS + (i : Int) * GAP_SECONDS) := by
  refine ⟨rfl, rfl, ?_, ?_, ?_, ?_⟩
  · intro hrolls
    simp only [Target.rolledTarget, if_pos hrolls]
  · intro hstays
    have hnot : ¬Target.targetEpochToday nowEpoch vH vM vS < nowEpoch := not_lt.mpr hstays
    simp only [Target.rolledTarget, if_neg hnot]
  · intro hsoon
    have hsoon' : Target.rolledTarget nowEpoch vH vM vS - nowEpoch < Target.MIN_LEAD := hsoon
    refine ⟨by simp only [Target.onCalculate, if_pos hsoon'], ?_⟩
    simp only [Target.onCalculate, if_pos hsoon']
    norm_num [Target.MIN_LEAD]
  · intro hok
    have hok' : ¬Target.rolledTarget nowEpoch vH vM vS - nowEpoch < Target.MIN_LEAD :=
      not_lt.mpr hok
    refine ⟨by simp only [Target.onCalculate, if_neg hok'], ?_⟩
    intro i hi
    rw [Target.planRowsT_getD _ _ i hi, mkRowT_arrivalEpoch]

/-! ### Claim C6 -/

/-- C6 as stated is false: on a failed calculation the previous plan is not
left untouched — it is cleared.  Concretely, calculating with a single
zero-duration march from a state that displays a one-row plan yields a state
whose plan is `none`, different from the previous plan. -/
theorem failure_clears_plan_counterexample :
    (onCalculate 0 [{ name := [], totalSec := 0 }]
        { plan := some [dummyRow], note := [] }).plan ≠
      (({ plan := some [dummyRow], note := [] } : PlannerState)).plan := by
  decide

/-- C6 amended: on every failed calculation (no active marches, or target
arrival too soon) the displayed plan is cleared — replaced by no plan — while
a non-empty notice is surfaced, and on every successful calculation the plan
is fully replaced by the newly computed rows.  Covers both variants. -/
theorem recomputation_replaces_or_clears (nowEpoch : Int) (marches : List MarchInput)
    (prev : PlannerState) (tnow : Int) (vH vM vS : JSInput)
    (tmarches : List MarchInput) (tprev : Target.PlannerState) :
    (marches.filter (fun m => 0 < m.totalSec) = [] →
      (onCalculate nowEpoch marches prev).plan = none ∧
      (onCalculate nowEpoch marches prev).note = noteNoMarch ∧ noteNoMarch ≠ []) ∧
    (marches.filter (fun m => 0 < m.totalSec) ≠ [] →
      (onCalculate nowEpoch marches prev).plan =
        some (planRows nowEpoch (marches.filter (fun m => 0 < m.totalSec)))) ∧
    (Target.rolledTarget tnow vH vM vS - tnow < Target.MIN_LEAD →
      (Target.onCalculate tnow vH vM vS tmarches tprev).plan = none ∧
      (Target.onCalculate tnow vH vM vS tmarches tprev).note =
        Target.noteTooSoon (tnow + Target.MIN_LEAD) ∧
      ∀ e : Int, Target.noteTooSoon e ≠ []) ∧
    (¬Target.rolledTarget tnow vH vM vS - tnow < Target.MIN_LEAD →
      (Target.onCalculate tnow vH vM vS tmarches tprev).plan =
        some (Target.planRows (Target.rolledTarget tnow vH vM vS)
          (tmarches.filter (fun m => 0 < m.totalSec)))) := by
  refine ⟨?_, ?_, ?_, ?_⟩
  · intro hempty
    have hb : (marches.filter (fun m => 0 < m.totalSec)).isEmpty = true := by
      rw [hempty]; rfl
    refine ⟨?_, ?_, by simp [noteNoMarch, lit]⟩ <;>
      simp only [onCalculate, hb, if_pos rfl, if_true]
  · intro hne
    have hb : (marches.filter (fun m => 0 < m.totalSec)).isEmpty = false :=
      isEmpty_eq_false_of_ne_nil hne
    simp only [onCalculate, hb, Bool.false_eq_true, if_false]
  · intro hsoon
    refine ⟨?_, ?_, ?_⟩
    · simp only [Target.onCalculate, if_pos hsoon]
    · simp only [Target.onCalculate, if_pos hsoon]
    · intro e
      simp [Target.noteTooSoon, lit]
  · intro hok
    simp only [Target.onCalculate, if_neg hok]

/-! ### Claim C7 -/

/-- C7: the Duration Parser is total with no error channel — every input
yields a non-negative integer; empty, non-numeric and negative inputs yield
0, and non-negative finite input is floored (truncation toward zero for
non-negative values); the `toSec` wrappers are likewise non-negative. -/
theorem normalizeInt_total_spec (v : JSInput) :
    0 ≤ normalizeInt v ∧
    (v.trimEmpty = true → normalizeInt v = 0) ∧
    (v.num = none → normalizeInt v = 0) ∧
    (∀ q : ℚ, v.num = some q → q < 0 → normalizeInt v = 0) ∧
    (∀ q : ℚ, v.num = some q → 0 ≤ q → v.trimEmpty = false → normalizeInt v = ⌊q⌋) ∧
    (∀ m s : JSInput, 0 ≤ toSecMarch m s) := by
  have hnonneg : ∀ w : JSInput, 0 ≤ normalizeInt w := by
    intro w
    unfold normalizeInt
    rcases w with ⟨te, num⟩
    cases te
    · cases num with
      | none => simp
      | some q =>
          simp only [Bool.false_eq_true, if_false]
          split_ifs with hq
          · exact Int.floor_nonneg.mpr hq
          · exact le_rfl
    · simp
  refine ⟨hnonneg v, ?_, ?_, ?_, ?_, ?_⟩
  · intro hte
    unfold normalizeInt
    rw [hte]
    rfl
  · intro hnone
    unfold normalizeInt
    rw [hnone]
    split_ifs <;> rfl
  · intro q hq hneg
    unfold normalizeInt
    rw [hq]
    by_cases hte : v.trimEmpty = true
    · rw [if_pos hte]
    · rw [if_neg hte]
      show (if 0 ≤ q then ⌊q⌋ else 0 : Int) = 0
      rw [if_neg (not_le.mpr hneg)]
  · intro q hq hqpos hte
    unfold normalizeInt
    rw [hq, hte]
    simp only [Bool.false_eq_true, if_false, if_pos hqpos]
  · intro m s
    have h1 := hnonneg m
    have h2 := hnonneg s
    unfold toSecMarch
    omega

/-! ### Claim C10 -/

/-- C10: every row of a computed plan has a strictly positive duration —
zero-duration participants are filtered out before scheduling.  For a mixed
input list with at least one positive duration, the calculate-from-now
`onCalculate` still produces a plan whose rows correspond exactly, in
relative input order, to the positive-duration participants, with contiguous
1-based sequence numbers. -/
theorem plan_covers_positive_marches (nowEpoch : Int) (marches : List MarchInput)
    (prev : PlannerState)
    (hmix : marches.filter (fun m => 0 < m.totalSec) ≠ []) :
    (onCalculate nowEpoch marches prev).plan =
      some (planRows nowEpoch (marches.filter (fun m => 0 < m.totalSec))) ∧
    (∀ r ∈ planRows nowEpoch (marches.filter (fun m => 0 < m.totalSec)),
      0 < r.durationSec) ∧
    (planRows nowEpoch (marches.filter (fun m => 0 < m.totalSec))).map PlanRow.durationSec
      = (marches.filter (fun m => 0 < m.totalSec)).map MarchInput.totalSec ∧
    (planRows nowEpoch (marches.filter (fun m => 0 < m.totalSec))).length
      = (marches.filter (fun m => 0 < m.totalSec)).length ∧
    ∀ i : Nat, i < (marches.filter (fun m => 0 < m.totalSec)).length →
      ((planRows nowEpoch (marches.filter (fun m => 0 < m.totalSec))).getD i dummyRow).seq
        = i + 1 := by
  refine ⟨?_, ?_, planRows_map_durationSec _ _, planRows_length _ _, ?_⟩
  · have hb : (marches.filter (fun m => 0 < m.totalSec)).isEmpty = false :=
      isEmpty_eq_false_of_ne_nil hmix
    simp only [onCalculate, hb, Bool.false_eq_true, if_false]
  · intro r hr
    have hmap : r.durationSec ∈
        (planRows nowEpoch (marches.filter (fun m => 0 < m.totalSec))).map
          PlanRow.durationSec :=
      List.mem_map_of_mem PlanRow.durationSec hr
    rw [planRows_map_durationSec] at hmap
    obtain ⟨m, hm, hms⟩ := List.mem_map.mp hmap
    have := (List.mem_filter.mp hm).2
    have hpos : 0 < m.totalSec := by exact_mod_cast of_decide_eq_true this
    omega
  · intro i hi
    rw [planRows_getD _ _ i hi, mkRow_seq]

/-! ### Claim C9 -/

theorem byAppear_perm (rows : List PlanRow) : (byAppear rows).Perm rows :=
  List.perm_insertionSort appearLE rows

theorem byAppear_sorted (rows : List PlanRow) : List.Sorted appearLE (byAppear rows) :=
  List.sorted_insertionSort appearLE rows

theorem byAppear_sorted_getD (rows : List PlanRow) (a b : Nat) (hab : a ≤ b)
    (hb : b < (byAppear rows).length) :
    appearKey ((byAppear rows).getD a dummyRow) ≤
      appearKey ((byAppear rows).getD b dummyRow) := by
  rcases Nat.eq_or_lt_of_le hab with rfl | hlt
  · exact le_rfl
  · have ha : a < (byAppear rows).length := lt_trans hlt hb
    have hfin : (⟨a, ha⟩ : Fin (byAppear rows).length) < ⟨b, hb⟩ := hlt
    have hrel := List.Sorted.rel_get_of_lt (byAppear_sorted rows) hfin
    rw [List.getD_eq_getElem _ _ ha, List.getD_eq_getElem _ _ hb]
    exact hrel

theorem summaryLinesFrom_getD :
    ∀ (l : List PlanRow) (k : Nat) (p : PlanRow) (j : Nat), j < l.length →
      (summaryLinesFrom k p l).getD j [] =
        summaryLine (k + j) (if j = 0 then p else l.getD (j - 1) dummyRow)
          (l.getD j dummyRow) := by
  intro l
  induction l with
  | nil => intro k p j h; exact absurd h (by simp)
  | cons r rest ih =>
      intro k p j h
      cases j with
      | zero => simp [summaryLinesFrom]
      | succ j =>
          have hlt : j < rest.length := by simpa using h
          have hih := ih (k + 1) r j hlt
          simp only [summaryLinesFrom, List.getD_cons_succ, hih]
          have harith : k + 1 + j = k + (j + 1) := by omega
          rw [harith]
          cases j with
          | zero => simp
          | succ j' => simp

theorem summaryLines_getD (rows : List PlanRow) (i : Nat) (h1 : 1 ≤ i)
    (h2 : i < (byAppear rows).length) :
    (summaryLines rows).getD i [] =
      summaryLine i ((byAppear rows).getD (i - 1) dummyRow)
        ((byAppear rows).getD i dummyRow) := by
  unfold summaryLines
  cases hb : byAppear rows with
  | nil =>
      rw [hb] at h2
      exact absurd h2 (by simp)
  | cons r rest =>
      rw [hb] at h2
      obtain ⟨j, rfl⟩ : ∃ j, i = j + 1 := ⟨i - 1, by omega⟩
      have hlt : j < rest.length := by simpa using h2
      simp only [List.getD_cons_succ]
      rw [summaryLinesFrom_getD rest 1 r j hlt]
      have h1j : 1 + j = j + 1 := by omega
      rw [h1j]
      cases j with
      | zero => simp
      | succ j' => simp

/-- C9 amended: the summary ranks the plan rows by (displayed) rally-start
time — `byAppear` is a sorted permutation of the rows — and for every
participant after the first in that order, the summary line reports the
absolute difference `|Δ|` of rally-start seconds from the previous
participant, the word "more" when `Δ ≥ 0` and "less" otherwise, and an
anchor whose minutes:seconds value is `5 minutes − |Δ|` clamped below at
zero: `max 0 (300 − |Δ|)`. -/
theorem summary_line_spec (rows : List PlanRow) (i : Nat) (h1 : 1 ≤ i)
    (h2 : i < (byAppear rows).length) :
    (byAppear rows).Perm rows ∧
    (∀ a b : Nat, a ≤ b → b < (byAppear rows).length →
      appearKey ((byAppear rows).getD a dummyRow) ≤
        appearKey ((byAppear rows).getD b dummyRow)) ∧
    (summaryLines rows).getD i [] =
      summaryLine i ((byAppear rows).getD (i - 1) dummyRow)
        ((byAppear rows).getD i dummyRow) ∧
    summaryMoreLess (summaryDelta ((byAppear rows).getD (i - 1) dummyRow)
        ((byAppear rows).getD i dummyRow))
      = (if 0 ≤ summaryDelta ((byAppear rows).getD (i - 1) dummyRow)
            ((byAppear rows).getD i dummyRow)
         then lit "more" else lit "less") ∧
    mmssVal (summaryAnchor (summaryDelta ((byAppear rows).getD (i - 1) dummyRow)
        ((byAppear rows).getD i dummyRow)))
      = max 0 (5 * 60 - |summaryDelta ((byAppear rows).getD (i - 1) dummyRow)
          ((byAppear rows).getD i dummyRow)|) := by
  refine ⟨byAppear_perm rows, byAppear_sorted_getD rows, summaryLines_getD rows i h1 h2,
    rfl, ?_⟩
  rw [summaryAnchor, mmssVal_mmss]

/-- C9 as stated is false: the anchor is not always `5 minutes − |Δ|`.  In
the plan computed from now = 0 for durations 1 s and 1000 s, the two
rally-start times differ by 997 s, `5 minutes − |Δ| = −697`, yet the
summary's anchor reads `00:00`, i.e. the value 0. -/
theorem summary_anchor_counterexample :
    summaryDelta ((byAppear (planRows 0 demoWide)).getD 0 dummyRow)
        ((byAppear (planRows 0 demoWide)).getD 1 dummyRow) = 997 ∧
    summaryAnchor (997 : Int) = lit "00:00" ∧
    mmssVal (summaryAnchor (997 : Int)) = 0 ∧
    (5 * 60 - |(997 : Int)| = -697) ∧
    mmssVal (summaryAnchor (997 : Int)) ≠ 5 * 60 - |(997 : Int)| := by
  refine ⟨by decide, by decide, by decide, by decide, by decide⟩

/-! ### Witnesses -/

/-- Witness for C1 at the spec's worked scenario (reference epoch 0,
durations 30/90/10): row 1's rally start respects the readiness floor. -/
theorem firstArrival_skew_and_floor_witness :
    0 + READINESS_SECONDS ≤ ((planRows 0 demoActive).getD 1 dummyRow).rallyStartEpoch := by
  have h := firstArrival_skew_and_floor 0 demoActive (by decide) (by decide)
  exact h.2.2.2.2 1 (by decide)

/-- Witness for C2 at rows 0 and 2 of the worked scenario. -/
theorem arrival_spacing_exact_witness :
    ((planRows 0 demoActive).getD 2 dummyRow).arrivalEpoch -
        ((planRows 0 demoActive).getD 0 dummyRow).arrivalEpoch
      = (((2 : Nat) : Int) - ((0 : Nat) : Int)) * GAP_SECONDS :=
  (arrival_spacing_exact 0 0 demoActive 0 2 (by decide) (by decide)).1.1

/-- Witness for C3 at row 1 of the fixed-target plan for the worked
scenario. -/
theorem send_rally_equations_witness :
    ((Target.planRows 0 demoActive).getD 1 dummyRowT).rallyStartEpoch =
      ((Target.planRows 0 demoActive).getD 1 dummyRowT).arrivalEpoch -
        ((Target.planRows 0 demoActive).getD 1 dummyRowT).durationSec -
        RALLY_PREP_SECONDS :=
  (send_rally_equations 0 0 demoActive 1 (by decide)).2.2.2

/-- Witness for C4: the spec's worked scenario gives row 1 a start delta of
`2 − 60 = −58` seconds. -/
theorem startDelta_formula_witness :
    ((planRows 0 demoActive).getD 1 dummyRow).startDeltaSec = -58 := by
  have h := startDelta_formula 0 demoActive 1 (by decide)
  refine h.1.trans ?_
  decide

/-- Witness for C5: at now = 1000 with empty target fields the target rolls
to the next midnight, far enough away, and a plan is produced. -/
theorem target_mode_rules_witness :
    (Target.onCalculate 1000 demoEmptyInput demoEmptyInput demoEmptyInput demoActive
        { plan := none, note := [] }).plan =
      some (Target.planRows
        (Target.rolledTarget 1000 demoEmptyInput demoEmptyInput demoEmptyInput)
        (demoActive.filter (fun m => 0 < m.totalSec))) := by
  have h := target_mode_rules 1000 demoEmptyInput demoEmptyInput demoEmptyInput demoActive
    { plan := none, note := [] }
  exact (h.2.2.2.2.2 (by decide)).1

/-- Witness for the amended C6: a failing calculation clears the plan. -/
theorem recomputation_replaces_or_clears_witness :
    (onCalculate 0 [{ name := [], totalSec := 0 }]
        { plan := some [dummyRow], note := [] }).plan = none := by
  have h := recomputation_replaces_or_clears 0 [{ name := [], totalSec := 0 }]
    { plan := some [dummyRow], note := [] } 0 demoEmptyInput demoEmptyInput demoEmptyInput
    [] { plan := none, note := [] }
  exact (h.1 (by decide)).1

/-- Witness for C7: fractional input 7/2 truncates to 3; empty input
normalizes to 0. -/
theorem normalizeInt_total_spec_witness :
    normalizeInt demoFracInput = 3 ∧ normalizeInt demoEmptyInput = 0 := by
  have h := normalizeInt_total_spec demoFracInput
  have h2 := normalizeInt_total_spec demoEmptyInput
  constructor
  · have hfloor := h.2.2.2.2.1 (7 / 2) rfl (by norm_num) rfl
    rw [hfloor]
    norm_num
  · exact h2.2.1 rfl

/-- Witness for the amended C9 at the worked scenario's plan: the appearance
order is a permutation of the plan rows. -/
theorem summary_line_spec_witness :
    (byAppear (planRows 0 demoActive)).Perm (planRows 0 demoActive) :=
  (summary_line_spec (planRows 0 demoActive) 1 (by decide) (by decide)).1

/-- Witness for C10 on a mixed list (durations 0/30/0/90): a plan covering
the two positive-duration rows is produced. -/
theorem plan_covers_positive_marches_witness :
    (onCalculate 0 demoMixed { plan := none, note := [] }).plan =
      some (planRows 0 (demoMixed.filter (fun m => 0 < m.totalSec))) :=
  (plan_covers_positive_marches 0 demoMixed { plan := none, note := [] } (by decide)).1

end RallyTime
